import Mathlib

/-!
Verification of the PyCDE module builder (`frontends/PyCDE/src/pycde/module.py`).

This file gives a shallow embedding, in Lean, of the parts of `module.py`
relevant to the specified properties:

* `scan_cls` (the class scanner assigning port indices),
* `ModuleLikeBuilderBase.GeneratorCtxt` / `ModuleBuilder.generate`
  (the scoped generation engine),
* `ModuleBuilder.instantiate` (input resolution),
* `_create_module_name` (derived display names of parameterized modules),
* `modparams.__call__` / `_get_module_cache_key` (the parameterization cache),
* `_BlockContext.uniquify_symbol` (symbol uniquification).

Python dictionaries are modelled as association lists in insertion order,
Python sets of small naturals as lists, machine-level IR handles as booleans
and counters recording which IR actions were performed.  Python string
formatting of counters (f-strings) is modelled by an executable decimal
renderer.  External collaborators that live outside `module.py`
(`BackedgeBuilder`, `ir.InsertionPoint`, `ir.Location`, `ClockSignal` used as
context managers, and `_obj_to_attribute` normalizing parameter dictionaries)
are modelled from the spec where noted.
-/

/-- Hardware types are opaque to `module.py`; it only ever compares them for
equality (`port.type != signal.type`).  We model them by a numeric id. -/
abbrev HWType := Nat

/-- Roles an input-port marker can carry.  In the source, `Clock` and `Reset`
are subclasses of `Input`; an `Output` never carries a role. -/
inductive PortRole
  | plain
  | clock
  | reset
deriving DecidableEq, Repr

/-- A value of a class dictionary entry, as recognized by `scan_cls`:
`Input` markers (with their `Clock`/`Reset` subclass role and the mutable
`name`/`idx` fields that `scan_cls` writes), `Output` markers, `Generator`
markers, `Constant` markers, the value bound to the reserved name
`Attributes`, and anything else (ignored by the scanner). -/
inductive DeclAttr
  | input (role : PortRole) (ty : HWType) (name : Option String) (idx : Option Nat)
  | output (ty : HWType) (name : Option String) (idx : Option Nat)
  | generator (gid : Nat)
  | constant (val : Nat)
  | attrList (items : List String)
  | other
deriving DecidableEq, Repr

/-- Direction of a scanned port. -/
inductive PortDir
  | input
  | output
deriving DecidableEq, Repr

/-- A port as recorded in `self.ports` by `scan_cls`: the mutated marker with
its assigned `name` and per-direction `idx`. -/
structure Port where
  name : String
  dir : PortDir
  role : PortRole
  ty : HWType
  idx : Nat
deriving DecidableEq, Repr

/-- `attr_name.startswith("_")` on the scanner's single-character prefix. -/
def startsWithUnderscore (s : String) : Bool :=
  match s.data with
  | [] => false
  | c :: _ => c = '_'

/-- The state populated by `scan_cls`, together with the class dictionary as
left behind by the scan (the scanner mutates the `Input`/`Output` markers in
place, recording their assigned `name` and `idx`). -/
structure ScanResult where
  ports : List Port := []
  clocks : List Nat := []
  resets : List Nat := []
  generators : List (String × Nat) := []
  constants : List (String × Nat) := []
  attrs : Option (List String) := none
  updated : List (String × DeclAttr) := []
deriving DecidableEq, Repr

/-- The loop body of `scan_cls`, folded over the class dictionary in
declaration order with the two running counters `num_inputs`/`num_outputs`.
Underscore-prefixed names are skipped, the reserved name `Attributes` is
consumed as the free-form attribute group, `Clock`/`Reset` markers record the
upcoming input index as a role tag (before the marker is registered as an
input port), and `Input`/`Output` markers receive their per-direction index
and their attribute name. -/
def scan_cls : List (String × DeclAttr) → Nat → Nat → ScanResult
  | [], _, _ => {}
  | (nm, attr) :: rest, numIn, numOut =>
    if startsWithUnderscore nm then
      let r := scan_cls rest numIn numOut
      { r with updated := (nm, attr) :: r.updated }
    else if nm = "Attributes" then
      let r := scan_cls rest numIn numOut
      let items : List String := match attr with
        | .attrList l => l
        | _ => []
      { r with
          attrs := some (match r.attrs with | some a => a | none => items)
          updated := (nm, attr) :: r.updated }
    else
      match attr with
      | .input role ty _ _ =>
        let r := scan_cls rest (numIn + 1) numOut
        { r with
            ports := { name := nm, dir := .input, role := role, ty := ty, idx := numIn } :: r.ports
            clocks := (if role = .clock then [numIn] else []) ++ r.clocks
            resets := (if role = .reset then [numIn] else []) ++ r.resets
            updated := (nm, .input role ty (some nm) (some numIn)) :: r.updated }
      | .output ty _ _ =>
        let r := scan_cls rest numIn (numOut + 1)
        { r with
            ports := { name := nm, dir := .output, role := .plain, ty := ty, idx := numOut } :: r.ports
            updated := (nm, .output ty (some nm) (some numOut)) :: r.updated }
      | .generator gid =>
        let r := scan_cls rest numIn numOut
        { r with
            generators := (nm, gid) :: r.generators
            updated := (nm, .generator gid) :: r.updated }
      | .constant v =>
        let r := scan_cls rest numIn numOut
        { r with
            constants := (nm, v) :: r.constants
            updated := (nm, .constant v) :: r.updated }
      | .attrList l =>
        let r := scan_cls rest numIn numOut
        { r with updated := (nm, .attrList l) :: r.updated }
      | .other =>
        let r := scan_cls rest numIn numOut
        { r with updated := (nm, .other) :: r.updated }

/-- `ModuleLikeBuilderBase.scan_cls` run on a class dictionary (counters start
at 0). -/
def scanClass (dct : List (String × DeclAttr)) : ScanResult :=
  scan_cls dct 0 0

/-- `ModuleLikeBuilderBase.inputs`: the scanned ports that are `Input`s, in
declaration order. -/
def inputPortsOf (r : ScanResult) : List Port :=
  r.ports.filter (fun p => p.dir = PortDir.input)

/-- `ModuleLikeBuilderBase.outputs`: the scanned ports that are `Output`s, in
declaration order. -/
def outputPortsOf (r : ScanResult) : List Port :=
  r.ports.filter (fun p => p.dir = PortDir.output)

example :
    (scanClass
      [("clk", .input .clock 0 none none),
       ("_hidden", .input .plain 1 none none),
       ("x", .input .plain 2 none none),
       ("Attributes", .attrList ["a"]),
       ("g", .generator 0),
       ("y", .output 3 none none),
       ("z", .output 4 none none)]).ports.map Port.idx = [0, 1, 0, 1] := by decide

example :
    (inputPortsOf (scanClass
      [("clk", .input .clock 0 none none),
       ("x", .input .plain 2 none none),
       ("y", .output 3 none none)])).map Port.idx = [0, 1] := by decide

theorem scan_cls_input_idx (dct : List (String × DeclAttr)) : ∀ numIn numOut,
    (((scan_cls dct numIn numOut).ports.filter (fun p => p.dir = PortDir.input)).map Port.idx) =
      List.range' numIn (((scan_cls dct numIn numOut).ports.filter (fun p => p.dir = PortDir.input)).length) := by
  induction dct with
  | nil => intro numIn numOut; simp [scan_cls]
  | cons e rest ih =>
    intro numIn numOut
    obtain ⟨nm, attr⟩ := e
    by_cases h1 : startsWithUnderscore nm
    · simpa only [scan_cls, h1, if_true] using ih numIn numOut
    · by_cases h2 : nm = "Attributes"
      · simpa only [scan_cls, h1, h2, Bool.false_eq_true, if_false, if_true] using ih numIn numOut
      · cases attr with
        | input role ty n i =>
          simp [scan_cls, h1, h2, List.range'_succ]
          rw [ih (numIn + 1) numOut]
        | output ty n i => simp [scan_cls, h1, h2]; exact ih numIn (numOut + 1)
        | generator gid => simp [scan_cls, h1, h2]; exact ih numIn numOut
        | constant v => simp [scan_cls, h1, h2]; exact ih numIn numOut
        | attrList l => simp [scan_cls, h1, h2]; exact ih numIn numOut
        | other => simp [scan_cls, h1, h2]; exact ih numIn numOut

theorem scan_cls_output_idx (dct : List (String × DeclAttr)) : ∀ numIn numOut,
    (((scan_cls dct numIn numOut).ports.filter (fun p => p.dir = PortDir.output)).map Port.idx) =
      List.range' numOut (((scan_cls dct numIn numOut).ports.filter (fun p => p.dir = PortDir.output)).length) := by
  induction dct with
  | nil => intro numIn numOut; simp [scan_cls]
  | cons e rest ih =>
    intro numIn numOut
    obtain ⟨nm, attr⟩ := e
    by_cases h1 : startsWithUnderscore nm
    · simpa only [scan_cls, h1, if_true] using ih numIn numOut
    · by_cases h2 : nm = "Attributes"
      · simpa only [scan_cls, h1, h2, Bool.false_eq_true, if_false, if_true] using ih numIn numOut
      · cases attr with
        | input role ty n i => simp [scan_cls, h1, h2]; exact ih (numIn + 1) numOut
        | output ty n i =>
          simp [scan_cls, h1, h2, List.range'_succ]
          rw [ih numIn (numOut + 1)]
        | generator gid => simp [scan_cls, h1, h2]; exact ih numIn numOut
        | constant v => simp [scan_cls, h1, h2]; exact ih numIn numOut
        | attrList l => simp [scan_cls, h1, h2]; exact ih numIn numOut
        | other => simp [scan_cls, h1, h2]; exact ih numIn numOut

theorem scan_cls_port_names (dct : List (String × DeclAttr)) : ∀ numIn numOut,
    ∀ p ∈ (scan_cls dct numIn numOut).ports,
      startsWithUnderscore p.name = false ∧ p.name ≠ "Attributes" := by
  induction dct with
  | nil => intro numIn numOut p hp; simp [scan_cls] at hp
  | cons e rest ih =>
    intro numIn numOut p hp
    obtain ⟨nm, attr⟩ := e
    by_cases h1 : startsWithUnderscore nm
    · simp only [scan_cls, h1, if_true] at hp
      exact ih numIn numOut p hp
    · by_cases h2 : nm = "Attributes"
      · simp only [scan_cls, h1, h2, Bool.false_eq_true, if_false, if_true] at hp
        exact ih numIn numOut p hp
      · cases attr with
        | input role ty n i =>
          simp only [scan_cls, h1, h2, Bool.false_eq_true, if_false, List.mem_cons] at hp
          rcases hp with rfl | hp
          · exact ⟨Bool.eq_false_iff.mpr h1, h2⟩
          · exact ih (numIn + 1) numOut p hp
        | output ty n i =>
          simp only [scan_cls, h1, h2, Bool.false_eq_true, if_false, List.mem_cons] at hp
          rcases hp with rfl | hp
          · exact ⟨Bool.eq_false_iff.mpr h1, h2⟩
          · exact ih numIn (numOut + 1) p hp
        | generator gid =>
          simp only [scan_cls, h1, h2, Bool.false_eq_true, if_false] at hp
          exact ih numIn numOut p hp
        | constant v =>
          simp only [scan_cls, h1, h2, Bool.false_eq_true, if_false] at hp
          exact ih numIn numOut p hp
        | attrList l =>
          simp only [scan_cls, h1, h2, Bool.false_eq_true, if_false] at hp
          exact ih numIn numOut p hp
        | other =>
          simp only [scan_cls, h1, h2, Bool.false_eq_true, if_false] at hp
          exact ih numIn numOut p hp

theorem scan_cls_rescan (dct : List (String × DeclAttr)) : ∀ numIn numOut,
    scan_cls (scan_cls dct numIn numOut).updated numIn numOut = scan_cls dct numIn numOut := by
  induction dct with
  | nil => intro numIn numOut; simp [scan_cls]
  | cons e rest ih =>
    intro numIn numOut
    obtain ⟨nm, attr⟩ := e
    by_cases h1 : startsWithUnderscore nm
    · simp [scan_cls, h1, ih numIn numOut]
    · by_cases h2 : nm = "Attributes"
      · simp [scan_cls, h1, h2, ih numIn numOut]
      · cases attr with
        | input role ty n i => simp [scan_cls, h1, h2, ih (numIn + 1) numOut]
        | output ty n i => simp [scan_cls, h1, h2, ih numIn (numOut + 1)]
        | generator gid => simp [scan_cls, h1, h2, ih numIn numOut]
        | constant v => simp [scan_cls, h1, h2, ih numIn numOut]
        | attrList l => simp [scan_cls, h1, h2, ih numIn numOut]
        | other => simp [scan_cls, h1, h2, ih numIn numOut]

/-- C4: for every definition scanned by the class scanner, input-port indices
form the dense range `0..n_inputs-1` in declaration order, output-port indices
form the dense range `0..n_outputs-1` in declaration order, underscore-prefixed
attribute names and the reserved name `Attributes` are never registered as
ports, and re-running the scan on the declaration (with the markers as mutated
by the first scan) assigns the same indices. -/
theorem claim_C4_scanner_indices (dct : List (String × DeclAttr)) :
    ((inputPortsOf (scanClass dct)).map Port.idx =
        List.range (inputPortsOf (scanClass dct)).length) ∧
    ((outputPortsOf (scanClass dct)).map Port.idx =
        List.range (outputPortsOf (scanClass dct)).length) ∧
    (∀ p ∈ (scanClass dct).ports,
        startsWithUnderscore p.name = false ∧ p.name ≠ "Attributes") ∧
    scanClass (scanClass dct).updated = scanClass dct := by
  refine ⟨?_, ?_, ?_, ?_⟩
  · rw [List.range_eq_range']
    exact scan_cls_input_idx dct 0 0
  · rw [List.range_eq_range']
    exact scan_cls_output_idx dct 0 0
  · exact scan_cls_port_names dct 0 0
  · exact scan_cls_rescan dct 0 0

/-- Witness for C4 at a concrete declaration. -/
theorem claim_C4_scanner_indices_witness :
    (Port.mk "x" PortDir.input PortRole.plain 2 1 ∈
        (scanClass
          [("clk", DeclAttr.input .clock 0 none none),
           ("_hidden", DeclAttr.input .plain 1 none none),
           ("x", DeclAttr.input .plain 2 none none),
           ("Attributes", DeclAttr.attrList ["a"]),
           ("y", DeclAttr.output 3 none none)]).ports) ∧
    startsWithUnderscore "x" = false ∧ ("x" : String) ≠ "Attributes" :=
  ⟨by decide,
    (claim_C4_scanner_indices
      [("clk", DeclAttr.input .clock 0 none none),
       ("_hidden", DeclAttr.input .plain 1 none none),
       ("x", DeclAttr.input .plain 2 none none),
       ("Attributes", DeclAttr.attrList ["a"]),
       ("y", DeclAttr.output 3 none none)]).2.2.1
      (Port.mk "x" PortDir.input PortRole.plain 2 1) (by decide)⟩

/-- The five scopes managed by `ModuleLikeBuilderBase.GeneratorCtxt`:
the `_BlockContext` (backed by the `_current_block_context` `ContextVar`),
the `BackedgeBuilder`, the IR insertion point, the location scope, and the
implicit clock scope. -/
inductive ScopeTag
  | blockCtxt
  | backedge
  | insertPoint
  | location
  | clockScope
deriving DecidableEq, Repr

/-- Observable state of one generation invocation: the stack of currently
open scopes, traces of scope openings and closings, and flags for the IR
actions performed (`add_entry_block`, emission of the `hw.OutputOp`
terminator) and for `PortProxyBase._clear`. -/
structure GenState where
  scopeStack : List ScopeTag := []
  enterTrace : List ScopeTag := []
  exitTrace : List ScopeTag := []
  entryBlockAdded : Bool := false
  terminatorEmitted : Bool := false
  proxyCleared : Bool := false
deriving DecidableEq, Repr

/-- Opening a scope pushes it onto the scope stack. -/
def enterScope (t : ScopeTag) (st : GenState) : GenState :=
  { st with
      scopeStack := t :: st.scopeStack
      enterTrace := st.enterTrace ++ [t] }

/-- Modelled from the spec: the external context managers (`BackedgeBuilder`,
`ir.InsertionPoint`, `ir.Location`, `ClockSignal`), whose `__exit__` releases
the corresponding scope on every exit path; closing pops the scope when it is
topmost. -/
def closeScope (t : ScopeTag) (st : GenState) : GenState :=
  { st with
      scopeStack := if st.scopeStack.head? = some t then st.scopeStack.tail else st.scopeStack
      exitTrace := st.exitTrace ++ [t] }

/-- `_BlockContext.__exit__`: when an exception is in flight
(`exc_value is not None`) it returns early WITHOUT resetting the
`_current_block_context` variable, so the block-context scope is only closed
on the normal path. -/
def blockContextExit (excPending : Bool) (st : GenState) : GenState :=
  if excPending then st else closeScope ScopeTag.blockCtxt st

/-- `GeneratorCtxt.__init__`: the implicit clock is chosen only when the
builder has exactly one clock port (`len(builder.clocks) == 1`); it is that
single clock's input index. -/
def generatorCtxtClk (clocks : List Nat) : Option Nat :=
  if clocks.length = 1 then clocks.head? else none

/-- `GeneratorCtxt.__enter__`: block context, backedge builder, insertion
point, location, and (if present) the implicit clock, in that order. -/
def generatorCtxtEnter (clk : Option Nat) (st : GenState) : GenState :=
  let st1 := enterScope ScopeTag.blockCtxt st
  let st2 := enterScope ScopeTag.backedge st1
  let st3 := enterScope ScopeTag.insertPoint st2
  let st4 := enterScope ScopeTag.location st3
  match clk with
  | some _ => enterScope ScopeTag.clockScope st4
  | none => st4

/-- `GeneratorCtxt.__exit__`: clock, location, insertion point, backedge
builder, block context (the latter via `_BlockContext.__exit__`, which is a
no-op when an exception is pending), then `ports._clear()`. -/
def generatorCtxtExit (clk : Option Nat) (excPending : Bool) (st : GenState) : GenState :=
  let st1 := match clk with
    | some _ => closeScope ScopeTag.clockScope st
    | none => st
  let st2 := closeScope ScopeTag.location st1
  let st3 := closeScope ScopeTag.insertPoint st2
  let st4 := closeScope ScopeTag.backedge st3
  let st5 := blockContextExit excPending st4
  { st5 with proxyCleared := true }

/-- Outcome of running the user generation routine. -/
inductive GenOutcome
  | raises
  | returnsNone
  | returnsValue
deriving DecidableEq, Repr

/-- The observable behavior of a user generation routine: the output indices
it assigns through the port proxy, and how it finishes. -/
structure GenFunc where
  assigns : List Nat
  outcome : GenOutcome
deriving DecidableEq, Repr

/-- Errors surfacing from `ModuleBuilder.generate`. -/
inductive GenErr
  | userError
  | generatorReturnedValue
  | unconnectedOutputs (modName : String) (ports : List String)
deriving DecidableEq, Repr

/-- `PortProxyBase._check_unconnected_outputs`: the names of the output ports
whose proxy slot was never assigned, in slot (= output index) order. -/
def unconnectedOutputNames (outputs : List Port) (assigns : List Nat) : List String :=
  (outputs.enum.filter (fun p => decide (p.1 ∉ assigns))).map (fun p => p.2.name)

/-- `ModuleBuilder.generate`: add the entry block, build the port proxy,
enter the generator context, run the generation routine, reject a returned
value, check for unconnected outputs, emit the terminator on success, and
leave the context (with the exception flag on every failing path). -/
def generate (modName : String) (outputs : List Port) (clocks : List Nat)
    (g : GenFunc) (st0 : GenState) : Except GenErr Unit × GenState :=
  let st1 := { st0 with entryBlockAdded := true }
  let clk := generatorCtxtClk clocks
  let st2 := generatorCtxtEnter clk st1
  match g.outcome with
  | .raises => (Except.error GenErr.userError, generatorCtxtExit clk true st2)
  | .returnsValue => (Except.error GenErr.generatorReturnedValue, generatorCtxtExit clk true st2)
  | .returnsNone =>
    let unconnected := unconnectedOutputNames outputs g.assigns
    if unconnected.isEmpty then
      let st3 := { st2 with terminatorEmitted := true }
      (Except.ok (), generatorCtxtExit clk false st3)
    else
      (Except.error (GenErr.unconnectedOutputs modName unconnected),
        generatorCtxtExit clk true st2)

example :
    (generate "M" [Port.mk "out" .output .plain 0 0] [] ⟨[], .returnsNone⟩ {}).1 =
      Except.error (GenErr.unconnectedOutputs "M" ["out"]) := rfl

example :
    (generate "M" [Port.mk "out" .output .plain 0 0] [] ⟨[0], .returnsNone⟩ {}).2.terminatorEmitted
      = true := rfl

example :
    (generate "M" [] [3] ⟨[], .returnsNone⟩ {}).2.enterTrace =
      [ScopeTag.blockCtxt, .backedge, .insertPoint, .location, .clockScope] := rfl

example :
    (generate "M" [Port.mk "o" .output .plain 0 0] [] ⟨[], .returnsNone⟩ {}).2.scopeStack =
      [ScopeTag.blockCtxt] := rfl

/-- C7: an ambient (implicit) clock is bound for the generation scope iff the
definition has exactly one clock port. -/
theorem claim_C7_implicit_clock (modName : String) (outputs : List Port)
    (clocks : List Nat) (g : GenFunc) :
    ScopeTag.clockScope ∈ (generate modName outputs clocks g {}).2.enterTrace ↔
      clocks.length = 1 := by
  rcases g with ⟨assigns, outcome⟩
  by_cases hc : clocks.length = 1
  · obtain ⟨a, rfl⟩ := List.length_eq_one.mp hc
    cases outcome with
    | raises =>
      simp [generate, generatorCtxtClk, generatorCtxtEnter, generatorCtxtExit,
        closeScope, blockContextExit, enterScope]
    | returnsNone =>
      simp only [generate, generatorCtxtClk]
      split <;>
        simp [generatorCtxtEnter, generatorCtxtExit, closeScope,
          blockContextExit, enterScope]
    | returnsValue =>
      simp [generate, generatorCtxtClk, generatorCtxtEnter, generatorCtxtExit,
        closeScope, blockContextExit, enterScope]
  · cases outcome with
    | raises =>
      simp [generate, generatorCtxtClk, hc, generatorCtxtEnter, generatorCtxtExit,
        closeScope, blockContextExit, enterScope]
    | returnsNone =>
      simp only [generate, generatorCtxtClk, hc, if_false]
      split <;>
        simp [generatorCtxtEnter, generatorCtxtExit, closeScope,
          blockContextExit, enterScope, hc]
    | returnsValue =>
      simp [generate, generatorCtxtClk, hc, generatorCtxtEnter, generatorCtxtExit,
        closeScope, blockContextExit, enterScope]

/-- C2 (amended): when the generation routine returns `None` but leaves
declared outputs unassigned, generation fails with an unconnected-output
error naming exactly the unassigned ports (in output-index order), and the
partially built IR module node is left WITHOUT a terminator (the terminator
is only emitted when all outputs are connected). -/
theorem claim_C2_unconnected_outputs (modName : String) (outputs : List Port)
    (clocks : List Nat) (g : GenFunc)
    (hret : g.outcome = GenOutcome.returnsNone)
    (hun : unconnectedOutputNames outputs g.assigns ≠ []) :
    (generate modName outputs clocks g {}).1 =
      Except.error (GenErr.unconnectedOutputs modName
        (unconnectedOutputNames outputs g.assigns)) ∧
    (∀ nm, nm ∈ unconnectedOutputNames outputs g.assigns ↔
      ∃ i p, outputs[i]? = some p ∧ i ∉ g.assigns ∧ nm = p.name) ∧
    (generate modName outputs clocks g {}).2.terminatorEmitted = false ∧
    (generate modName outputs clocks g {}).2.entryBlockAdded = true := by
  have hne : (unconnectedOutputNames outputs g.assigns).isEmpty = false := by
    cases hL : (unconnectedOutputNames outputs g.assigns).isEmpty
    · rfl
    · exact absurd (List.isEmpty_iff.mp hL) hun
  refine ⟨?_, ?_, ?_, ?_⟩
  · simp [generate, hret, hne]
  · intro nm
    simp only [unconnectedOutputNames, List.mem_map, List.mem_filter,
      decide_eq_true_eq]
    constructor
    · rintro ⟨⟨i, p⟩, ⟨hmem, hni⟩, rfl⟩
      exact ⟨i, p, List.mem_enum_iff_getElem?.mp hmem, hni, rfl⟩
    · rintro ⟨i, p, hget, hni, rfl⟩
      exact ⟨(i, p), ⟨List.mem_enum_iff_getElem?.mpr hget, hni⟩, rfl⟩
  · cases hclk : generatorCtxtClk clocks <;>
      simp [generate, hret, hne, hclk, generatorCtxtEnter, generatorCtxtExit,
        closeScope, blockContextExit, enterScope]
  · cases hclk : generatorCtxtClk clocks <;>
      simp [generate, hret, hne, hclk, generatorCtxtEnter, generatorCtxtExit,
        closeScope, blockContextExit, enterScope]

/-- Counterexample to C2 as stated: a generation invocation with one declared
output left unassigned fails with the unconnected-output error, yet the entry
block was added and no terminator was emitted, so a partial IR module node IS
left without a terminator. -/
theorem claim_C2_counterexample :
    (generate "M" [Port.mk "out" PortDir.output PortRole.plain 0 0] []
        (GenFunc.mk [] GenOutcome.returnsNone) {}).1 =
      Except.error (GenErr.unconnectedOutputs "M" ["out"]) ∧
    (generate "M" [Port.mk "out" PortDir.output PortRole.plain 0 0] []
        (GenFunc.mk [] GenOutcome.returnsNone) {}).2.entryBlockAdded = true ∧
    (generate "M" [Port.mk "out" PortDir.output PortRole.plain 0 0] []
        (GenFunc.mk [] GenOutcome.returnsNone) {}).2.terminatorEmitted = false :=
  ⟨rfl, rfl, rfl⟩

/-- Witness for C2 (amended) at a concrete input. -/
theorem claim_C2_unconnected_outputs_witness :
    GenOutcome.returnsNone = GenOutcome.returnsNone ∧
    unconnectedOutputNames
        [Port.mk "a" PortDir.output PortRole.plain 0 0,
         Port.mk "b" PortDir.output PortRole.plain 0 1] [0] ≠ [] ∧
    (generate "M"
        [Port.mk "a" PortDir.output PortRole.plain 0 0,
         Port.mk "b" PortDir.output PortRole.plain 0 1] []
        (GenFunc.mk [0] GenOutcome.returnsNone) {}).1 =
      Except.error (GenErr.unconnectedOutputs "M"
        (unconnectedOutputNames
          [Port.mk "a" PortDir.output PortRole.plain 0 0,
           Port.mk "b" PortDir.output PortRole.plain 0 1] [0])) :=
  ⟨rfl, by decide,
    (claim_C2_unconnected_outputs "M"
      [Port.mk "a" PortDir.output PortRole.plain 0 0,
       Port.mk "b" PortDir.output PortRole.plain 0 1] []
      (GenFunc.mk [0] GenOutcome.returnsNone) rfl (by decide)).1⟩

/-- C3 (amended): when a generation invocation fails (user code raising, a
returned value, or the unconnected-output check), the backedge builder,
insertion point, location scope, and implicit clock scope are closed in
reverse order of opening before the error reaches the caller, and the port
proxy is invalidated; but `_BlockContext.__exit__` returns without resetting
the context variable when an exception is pending, so the block-context scope
remains open. -/
theorem claim_C3_scope_unwinding (modName : String) (outputs : List Port)
    (clocks : List Nat) (g : GenFunc)
    (hfail : ∃ e, (generate modName outputs clocks g {}).1 = Except.error e) :
    (generate modName outputs clocks g {}).2.exitTrace =
      ((generate modName outputs clocks g {}).2.enterTrace.filter
        (fun t => t ≠ ScopeTag.blockCtxt)).reverse ∧
    (generate modName outputs clocks g {}).2.proxyCleared = true ∧
    (generate modName outputs clocks g {}).2.scopeStack = [ScopeTag.blockCtxt] := by
  obtain ⟨e, he⟩ := hfail
  rcases g with ⟨assigns, outcome⟩
  cases hclk : generatorCtxtClk clocks with
  | none =>
    cases outcome with
    | raises =>
      refine ⟨?_, ?_, ?_⟩ <;>
        simp [generate, hclk, generatorCtxtEnter, generatorCtxtExit,
          closeScope, blockContextExit, enterScope, List.filter]
    | returnsValue =>
      refine ⟨?_, ?_, ?_⟩ <;>
        simp [generate, hclk, generatorCtxtEnter, generatorCtxtExit,
          closeScope, blockContextExit, enterScope, List.filter]
    | returnsNone =>
      have hne : (unconnectedOutputNames outputs assigns).isEmpty = false := by
        cases hL : (unconnectedOutputNames outputs assigns).isEmpty
        · rfl
        · simp [generate, hL] at he
      refine ⟨?_, ?_, ?_⟩ <;>
        simp [generate, hclk, hne, generatorCtxtEnter, generatorCtxtExit,
          closeScope, blockContextExit, enterScope, List.filter]
  | some c =>
    cases outcome with
    | raises =>
      refine ⟨?_, ?_, ?_⟩ <;>
        simp [generate, hclk, generatorCtxtEnter, generatorCtxtExit,
          closeScope, blockContextExit, enterScope, List.filter]
    | returnsValue =>
      refine ⟨?_, ?_, ?_⟩ <;>
        simp [generate, hclk, generatorCtxtEnter, generatorCtxtExit,
          closeScope, blockContextExit, enterScope, List.filter]
    | returnsNone =>
      have hne : (unconnectedOutputNames outputs assigns).isEmpty = false := by
        cases hL : (unconnectedOutputNames outputs assigns).isEmpty
        · rfl
        · simp [generate, hL] at he
      refine ⟨?_, ?_, ?_⟩ <;>
        simp [generate, hclk, hne, generatorCtxtEnter, generatorCtxtExit,
          closeScope, blockContextExit, enterScope, List.filter]

/-- Counterexample to C3 as stated: a failing generation invocation leaves
the block-context scope on the scope stack (its exit is a no-op under a
pending exception), so NOT all scopes opened for the invocation are closed
before the error reaches the caller. -/
theorem claim_C3_counterexample :
    (∃ e, (generate "M" [Port.mk "out" PortDir.output PortRole.plain 0 0] []
        (GenFunc.mk [] GenOutcome.returnsNone) {}).1 = Except.error e) ∧
    (generate "M" [Port.mk "out" PortDir.output PortRole.plain 0 0] []
        (GenFunc.mk [] GenOutcome.returnsNone) {}).2.scopeStack =
      [ScopeTag.blockCtxt] ∧
    (generate "M" [Port.mk "out" PortDir.output PortRole.plain 0 0] []
        (GenFunc.mk [] GenOutcome.returnsNone) {}).2.exitTrace =
      [ScopeTag.location, ScopeTag.insertPoint, ScopeTag.backedge] :=
  ⟨⟨GenErr.unconnectedOutputs "M" ["out"], rfl⟩, rfl, rfl⟩

/-- Witness for C3 (amended) at a concrete failing generation. -/
theorem claim_C3_scope_unwinding_witness :
    (generate "M" [] [2] (GenFunc.mk [] GenOutcome.raises) {}).2.exitTrace =
      ((generate "M" [] [2] (GenFunc.mk [] GenOutcome.raises) {}).2.enterTrace.filter
        (fun t => t ≠ ScopeTag.blockCtxt)).reverse ∧
    (generate "M" [] [2] (GenFunc.mk [] GenOutcome.raises) {}).2.proxyCleared = true :=
  ⟨(claim_C3_scope_unwinding "M" [] [2] (GenFunc.mk [] GenOutcome.raises)
      ⟨GenErr.userError, rfl⟩).1,
    (claim_C3_scope_unwinding "M" [] [2] (GenFunc.mk [] GenOutcome.raises)
      ⟨GenErr.userError, rfl⟩).2.1⟩

/-- A value supplied for an input port at instantiation: a `Signal` (carrying
its type), Python `None` (an absent/disconnected input), or anything else
(treated as a constant literal to be converted to the port type). -/
inductive InValue
  | signal (ty : HWType) (v : Nat)
  | absent
  | lit (c : Nat)
deriving DecidableEq, Repr

/-- The resolved `circt_inputs` entry for one input port: the signal's value,
a zero constant of the port type (`create_const_zero`), or the literal
converted to the port type (`port.type(signal)`). -/
inductive RValue
  | fromSignal (ty : HWType) (v : Nat)
  | zeroConst (ty : HWType)
  | converted (ty : HWType) (c : Nat)
deriving DecidableEq, Repr

/-- Errors raised by `ModuleBuilder.instantiate`. -/
inductive InstErr
  | unknownPort (name : String)
  | typeMismatch (name : String) (got expected : HWType)
  | absentOnGenerated (name : String)
  | missingInputs (names : List String)
deriving DecidableEq, Repr

/-- The Python exception class each `instantiate` error is raised as:
`PortError` for an unknown port name and for `None` on a generator-backed
module, `ValueError` for a signal type mismatch and for missing inputs. -/
inductive PyExcClass
  | portError
  | valueError
deriving DecidableEq, Repr

/-- Classification of `InstErr` by raised Python exception class. -/
def InstErr.pyClass : InstErr → PyExcClass
  | .unknownPort _ => .portError
  | .absentOnGenerated _ => .portError
  | .typeMismatch _ _ _ => .valueError
  | .missingInputs _ => .valueError

/-- The `for name, signal in inputs.items()` loop of
`ModuleBuilder.instantiate`, processing the supplied entries in iteration
order against `port_input_lookup` (`hasGen` is `len(self.generators) > 0`). -/
def resolveLoop (inputPorts : List Port) (hasGen : Bool) :
    List (String × InValue) → Except InstErr (List (String × RValue))
  | [] => Except.ok []
  | (nm, v) :: rest =>
    match inputPorts.find? (fun p => p.name == nm) with
    | none => Except.error (InstErr.unknownPort nm)
    | some port =>
      match v with
      | .signal ty sv =>
        if ty ≠ port.ty then Except.error (InstErr.typeMismatch nm ty port.ty)
        else (resolveLoop inputPorts hasGen rest).map
          (fun r => (nm, RValue.fromSignal ty sv) :: r)
      | .absent =>
        if hasGen then Except.error (InstErr.absentOnGenerated nm)
        else (resolveLoop inputPorts hasGen rest).map
          (fun r => (nm, RValue.zeroConst port.ty) :: r)
      | .lit c =>
        (resolveLoop inputPorts hasGen rest).map
          (fun r => (nm, RValue.converted port.ty c) :: r)

/-- The `missing` computation of `ModuleBuilder.instantiate`: input port
names (in port declaration order) that received no supplied value. -/
def missingInputNames (inputPorts : List Port)
    (inputs : List (String × InValue)) : List String :=
  (inputPorts.map Port.name).filter (fun n => !((inputs.map Prod.fst).contains n))

/-- `ModuleBuilder.instantiate`: resolve the supplied inputs in iteration
order, then fail on any unresolved input port, else produce the instance's
resolved input map. -/
def instantiate (inputPorts : List Port) (hasGen : Bool)
    (inputs : List (String × InValue)) : Except InstErr (List (String × RValue)) :=
  match resolveLoop inputPorts hasGen inputs with
  | Except.error e => Except.error e
  | Except.ok res =>
    let missing := missingInputNames inputPorts inputs
    if missing.isEmpty then Except.ok res
    else Except.error (InstErr.missingInputs missing)

example :
    instantiate [Port.mk "a" .input .plain 8 0, Port.mk "b" .input .plain 8 1] true
        [("a", InValue.signal 8 3)] =
      Except.error (InstErr.missingInputs ["b"]) := rfl

example :
    instantiate [Port.mk "a" .input .plain 8 0] false [("a", InValue.absent)] =
      Except.ok [("a", RValue.zeroConst 8)] := rfl

example :
    instantiate [Port.mk "a" .input .plain 8 0] true [("a", InValue.absent)] =
      Except.error (InstErr.absentOnGenerated "a") := rfl

example :
    instantiate [Port.mk "a" .input .plain 8 0, Port.mk "c" .input .plain 4 1] false
        [("a", InValue.signal 4 0), ("b", InValue.lit 1)] =
      Except.error (InstErr.typeMismatch "a" 4 8) := rfl

/-- The resolution loop processes a concatenation by processing the prefix
first; a prefix error short-circuits, otherwise the suffix is processed and
the resolved entries are appended. -/
theorem resolveLoop_append (inputPorts : List Port) (hasGen : Bool)
    (pre rest : List (String × InValue)) :
    resolveLoop inputPorts hasGen (pre ++ rest) =
      match resolveLoop inputPorts hasGen pre with
      | Except.error e => Except.error e
      | Except.ok r1 => (resolveLoop inputPorts hasGen rest).map (fun r2 => r1 ++ r2) := by
  induction pre with
  | nil =>
    cases hr : resolveLoop inputPorts hasGen rest <;>
      simp [resolveLoop, hr, Except.map]
  | cons e pre ih =>
    obtain ⟨nm, v⟩ := e
    have step : ∀ x : String × RValue,
        Except.map (fun r => x :: r) (resolveLoop inputPorts hasGen (pre ++ rest)) =
          match Except.map (fun r => x :: r) (resolveLoop inputPorts hasGen pre) with
          | Except.error e => Except.error e
          | Except.ok r1 => (resolveLoop inputPorts hasGen rest).map (fun r2 => r1 ++ r2) := by
      intro x
      rw [ih]
      cases hp : resolveLoop inputPorts hasGen pre <;>
        cases hr : resolveLoop inputPorts hasGen rest <;>
          simp [Except.map]
    rw [List.cons_append, resolveLoop, resolveLoop]
    cases hf : inputPorts.find? (fun p => p.name == nm) with
    | none => rfl
    | some port =>
      cases v with
      | signal ty sv =>
        by_cases ht : ty ≠ port.ty
        · simp [ht]
        · simp only [ht, if_false]
          exact step _
      | absent =>
        cases hasGen with
        | true => simp
        | false =>
          simp only [Bool.false_eq_true, if_false]
          exact step _
      | lit c => exact step _

/-- If the resolution loop completes, every supplied name was found among the
input ports. -/
theorem resolveLoop_ok_known (inputPorts : List Port) (hasGen : Bool) :
    ∀ (inputs : List (String × InValue)) res,
      resolveLoop inputPorts hasGen inputs = Except.ok res →
      ∀ nm v, (nm, v) ∈ inputs →
        (inputPorts.find? (fun p => p.name == nm)).isSome := by
  intro inputs
  induction inputs with
  | nil => intro res _ nm v hmem; simp at hmem
  | cons e rest ih =>
    intro res h nm v hmem
    obtain ⟨nm0, v0⟩ := e
    cases hf : inputPorts.find? (fun p => p.name == nm0) with
    | none => simp [resolveLoop, hf] at h
    | some port =>
      rcases List.mem_cons.mp hmem with heq | hmem2
      · injection heq with h1 h2
        subst h1
        simp [hf]
      · have hrest : ∃ r, resolveLoop inputPorts hasGen rest = Except.ok r := by
          cases v0 with
          | signal ty sv =>
            by_cases ht : ty ≠ port.ty
            · simp [resolveLoop, hf, ht] at h
            · cases hr : resolveLoop inputPorts hasGen rest with
              | error e0 => simp [resolveLoop, hf, ht, hr, Except.map] at h
              | ok r => exact ⟨r, rfl⟩
          | absent =>
            cases hasGen with
            | true => simp [resolveLoop, hf] at h
            | false =>
              cases hr : resolveLoop inputPorts false rest with
              | error e0 => simp [resolveLoop, hf, hr, Except.map] at h
              | ok r => exact ⟨r, rfl⟩
          | lit c =>
            cases hr : resolveLoop inputPorts hasGen rest with
            | error e0 => simp [resolveLoop, hf, hr, Except.map] at h
            | ok r => exact ⟨r, rfl⟩
        obtain ⟨r, hr⟩ := hrest
        exact ih r hr nm v hmem2

/-- The resolution loop itself never raises the missing-inputs error. -/
theorem resolveLoop_no_missing (inputPorts : List Port) (hasGen : Bool) :
    ∀ (inputs : List (String × InValue)) ms,
      resolveLoop inputPorts hasGen inputs ≠ Except.error (InstErr.missingInputs ms) := by
  intro inputs
  induction inputs with
  | nil => intro ms h; simp [resolveLoop] at h
  | cons e rest ih =>
    intro ms h
    obtain ⟨nm0, v0⟩ := e
    cases hf : inputPorts.find? (fun p => p.name == nm0) with
    | none => simp [resolveLoop, hf] at h
    | some port =>
      cases v0 with
      | signal ty sv =>
        by_cases ht : ty ≠ port.ty
        · simp [resolveLoop, hf, ht] at h
        · cases hr : resolveLoop inputPorts hasGen rest with
          | error e0 =>
            simp [resolveLoop, hf, ht, hr, Except.map] at h
            exact ih ms (h ▸ hr)
          | ok r => simp [resolveLoop, hf, ht, hr, Except.map] at h
      | absent =>
        cases hasGen with
        | true => simp [resolveLoop, hf] at h
        | false =>
          cases hr : resolveLoop inputPorts false rest with
          | error e0 =>
            simp [resolveLoop, hf, hr, Except.map] at h
            exact ih ms (h ▸ hr)
          | ok r => simp [resolveLoop, hf, hr, Except.map] at h
      | lit c =>
        cases hr : resolveLoop inputPorts hasGen rest with
        | error e0 =>
          simp [resolveLoop, hf, hr, Except.map] at h
          exact ih ms (h ▸ hr)
        | ok r => simp [resolveLoop, hf, hr, Except.map] at h

/-- With a generation routine present, the loop never completes when some
supplied input is `None`. -/
theorem resolveLoop_absent_not_ok (inputPorts : List Port) :
    ∀ (inputs : List (String × InValue)) nm res,
      (nm, InValue.absent) ∈ inputs →
      resolveLoop inputPorts true inputs ≠ Except.ok res := by
  intro inputs
  induction inputs with
  | nil => intro nm res hmem; simp at hmem
  | cons e rest ih =>
    intro nm res hmem h
    obtain ⟨nm0, v0⟩ := e
    cases hf : inputPorts.find? (fun p => p.name == nm0) with
    | none => simp [resolveLoop, hf] at h
    | some port =>
      rcases List.mem_cons.mp hmem with heq | hmem2
      · injection heq with h1 h2
        subst h1 h2
        simp [resolveLoop, hf] at h
      · cases v0 with
        | signal ty sv =>
          by_cases ht : ty ≠ port.ty
          · simp [resolveLoop, hf, ht] at h
          · cases hr : resolveLoop inputPorts true rest with
            | error e0 => simp [resolveLoop, hf, ht, hr, Except.map] at h
            | ok r => exact ih nm r hmem2 hr
        | absent => simp [resolveLoop, hf] at h
        | lit c =>
          cases hr : resolveLoop inputPorts true rest with
          | error e0 => simp [resolveLoop, hf, hr, Except.map] at h
          | ok r => exact ih nm r hmem2 hr

/-- C5: when a supplied input value is `None` (absent): on a definition with a
generation routine the instantiation fails with a `PortError` (and can never
succeed), while on a definition without a generation routine the port is
resolved to a zero constant of its declared type and processing of the
remaining entries proceeds. -/
theorem claim_C5_absent_inputs (inputPorts : List Port) (hasGen : Bool)
    (pre post : List (String × InValue)) (nm : String) (port : Port)
    (r1 : List (String × RValue))
    (hfind : inputPorts.find? (fun p => p.name == nm) = some port)
    (hpre : resolveLoop inputPorts hasGen pre = Except.ok r1) :
    (hasGen = true →
      (instantiate inputPorts hasGen (pre ++ (nm, InValue.absent) :: post) =
        Except.error (InstErr.absentOnGenerated nm) ∧
      (InstErr.absentOnGenerated nm).pyClass = PyExcClass.portError ∧
      ∀ (inputs : List (String × InValue)) nm2 res, (nm2, InValue.absent) ∈ inputs →
        instantiate inputPorts hasGen inputs ≠ Except.ok res)) ∧
    (hasGen = false →
      resolveLoop inputPorts hasGen (pre ++ (nm, InValue.absent) :: post) =
        (resolveLoop inputPorts hasGen post).map
          (fun r2 => r1 ++ (nm, RValue.zeroConst port.ty) :: r2)) := by
  constructor
  · rintro rfl
    have hres : resolveLoop inputPorts true (pre ++ (nm, InValue.absent) :: post) =
        Except.error (InstErr.absentOnGenerated nm) := by
      rw [resolveLoop_append, hpre]
      simp [resolveLoop, hfind, Except.map]
    refine ⟨by simp [instantiate, hres], rfl, ?_⟩
    intro inputs nm2 res hmem heq
    cases hres2 : resolveLoop inputPorts true inputs with
    | error e => simp [instantiate, hres2] at heq
    | ok r =>
      exact resolveLoop_absent_not_ok inputPorts inputs nm2 r hmem hres2
  · rintro rfl
    rw [resolveLoop_append, hpre]
    cases hpost : resolveLoop inputPorts false post <;>
      simp [resolveLoop, hfind, hpost, Except.map]

/-- Witness for C5 at concrete instantiations (one generator-backed, one
external). -/
theorem claim_C5_absent_inputs_witness :
    instantiate [Port.mk "a" PortDir.input PortRole.plain 8 0] true
        [("a", InValue.absent)] =
      Except.error (InstErr.absentOnGenerated "a") ∧
    resolveLoop [Port.mk "a" PortDir.input PortRole.plain 8 0] false
        [("a", InValue.absent)] =
      Except.ok [("a", RValue.zeroConst 8)] := by
  constructor
  · exact ((claim_C5_absent_inputs [Port.mk "a" PortDir.input PortRole.plain 8 0]
      true [] [] "a" (Port.mk "a" PortDir.input PortRole.plain 8 0) [] rfl rfl).1 rfl).1
  · have h := (claim_C5_absent_inputs [Port.mk "a" PortDir.input PortRole.plain 8 0]
      false [] [] "a" (Port.mk "a" PortDir.input PortRole.plain 8 0) [] rfl rfl).2 rfl
    simpa using h

/-- C6: when every supplied name is a valid input port and the loop resolves
them all, but some input ports received no value, instantiation fails with
the missing-input error enumerating the full set of missing port names. -/
theorem claim_C6_missing_inputs (inputPorts : List Port) (hasGen : Bool)
    (inputs : List (String × InValue)) (res : List (String × RValue))
    (hloop : resolveLoop inputPorts hasGen inputs = Except.ok res)
    (hmiss : missingInputNames inputPorts inputs ≠ []) :
    instantiate inputPorts hasGen inputs =
      Except.error (InstErr.missingInputs (missingInputNames inputPorts inputs)) ∧
    ∀ n, n ∈ missingInputNames inputPorts inputs ↔
      (n ∈ inputPorts.map Port.name ∧ n ∉ inputs.map Prod.fst) := by
  have hne : (missingInputNames inputPorts inputs).isEmpty = false := by
    cases hL : (missingInputNames inputPorts inputs).isEmpty
    · rfl
    · exact absurd (List.isEmpty_iff.mp hL) hmiss
  constructor
  · simp [instantiate, hloop, hne]
  · intro n
    simp [missingInputNames, List.mem_filter]

/-- Witness for C6: both missing ports are enumerated. -/
theorem claim_C6_missing_inputs_witness :
    instantiate
        [Port.mk "a" PortDir.input PortRole.plain 8 0,
         Port.mk "b" PortDir.input PortRole.plain 8 1,
         Port.mk "c" PortDir.input PortRole.plain 4 2] false
        [("a", InValue.lit 1)] =
      Except.error (InstErr.missingInputs ["b", "c"]) := by
  have h := (claim_C6_missing_inputs
    [Port.mk "a" PortDir.input PortRole.plain 8 0,
     Port.mk "b" PortDir.input PortRole.plain 8 1,
     Port.mk "c" PortDir.input PortRole.plain 4 2] false
    [("a", InValue.lit 1)] [("a", RValue.converted 8 1)] rfl (by decide)).1
  exact h

/-- C10 (amended): supplied entries are validated in iteration order before
missing inputs are detected.  The missing-input error is never raised when
the supplied map contains an unknown name; and when every supplied entry
before the first unknown name resolves, instantiation fails with a
`PortError` naming that unknown port. -/
theorem claim_C10_unknown_precedence (inputPorts : List Port) (hasGen : Bool) :
    (∀ (inputs : List (String × InValue)) nm v, (nm, v) ∈ inputs →
      inputPorts.find? (fun p => p.name == nm) = none →
      ∀ ms, instantiate inputPorts hasGen inputs ≠
        Except.error (InstErr.missingInputs ms)) ∧
    (∀ (pre post : List (String × InValue)) nm v r1,
      resolveLoop inputPorts hasGen pre = Except.ok r1 →
      inputPorts.find? (fun p => p.name == nm) = none →
      instantiate inputPorts hasGen (pre ++ (nm, v) :: post) =
        Except.error (InstErr.unknownPort nm) ∧
      (InstErr.unknownPort nm).pyClass = PyExcClass.portError) := by
  constructor
  · intro inputs nm v hmem hf ms heq
    cases hres : resolveLoop inputPorts hasGen inputs with
    | error e =>
      simp only [instantiate, hres] at heq
      injection heq with h1
      exact resolveLoop_no_missing inputPorts hasGen inputs ms (h1 ▸ hres)
    | ok r =>
      have hs := resolveLoop_ok_known inputPorts hasGen inputs r hres nm v hmem
      rw [hf] at hs
      simp at hs
  · intro pre post nm v r1 hpre hf
    have hres : resolveLoop inputPorts hasGen (pre ++ (nm, v) :: post) =
        Except.error (InstErr.unknownPort nm) := by
      rw [resolveLoop_append, hpre]
      simp [resolveLoop, hf, Except.map]
    exact ⟨by simp [instantiate, hres], rfl⟩

/-- Counterexample to C10 as stated: the supplied map contains the unknown
name `b`, yet instantiation fails with the `ValueError` type mismatch raised
for the earlier supplied entry `a`, not with a port error naming `b`. -/
theorem claim_C10_counterexample :
    instantiate
        [Port.mk "a" PortDir.input PortRole.plain 8 0,
         Port.mk "c" PortDir.input PortRole.plain 4 1] false
        [("a", InValue.signal 4 0), ("b", InValue.lit 1)] =
      Except.error (InstErr.typeMismatch "a" 4 8) ∧
    (InstErr.typeMismatch "a" 4 8).pyClass = PyExcClass.valueError ∧
    instantiate
        [Port.mk "a" PortDir.input PortRole.plain 8 0,
         Port.mk "c" PortDir.input PortRole.plain 4 1] false
        [("a", InValue.signal 4 0), ("b", InValue.lit 1)] ≠
      Except.error (InstErr.unknownPort "b") :=
  ⟨rfl, rfl, fun h => InstErr.noConfusion (Except.error.inj h)⟩

/-- Witness for C10 (amended) at concrete instantiations. -/
theorem claim_C10_unknown_precedence_witness :
    instantiate [Port.mk "a" PortDir.input PortRole.plain 8 0] false
        [("zzz", InValue.lit 0)] =
      Except.error (InstErr.unknownPort "zzz") ∧
    instantiate [Port.mk "a" PortDir.input PortRole.plain 8 0] false
        [("zzz", InValue.lit 0)] ≠
      Except.error (InstErr.missingInputs ["a"]) := by
  constructor
  · exact ((claim_C10_unknown_precedence
      [Port.mk "a" PortDir.input PortRole.plain 8 0] false).2
      [] [] "zzz" (InValue.lit 0) [] rfl rfl).1
  · exact (claim_C10_unknown_precedence
      [Port.mk "a" PortDir.input PortRole.plain 8 0] false).1
      [("zzz", InValue.lit 0)] "zzz" (InValue.lit 0) (by decide) rfl ["a"]

/-- Python string comparison (used by `sorted(param_strings)`): lexicographic
by code point. -/
def charsLe : List Char → List Char → Bool
  | [], _ => true
  | _ :: _, [] => false
  | a :: as, b :: bs => if a = b then charsLe as bs else decide (a.toNat < b.toNat)

/-- Python `<=` on strings. -/
def strLe (a b : String) : Bool := charsLe a.data b.data

/-- Characters with equal code points are equal. -/
theorem char_toNat_inj {a b : Char} (h : a.toNat = b.toNat) : a = b :=
  Char.ext (UInt32.ext h)

theorem charsLe_total : ∀ as bs, charsLe as bs = true ∨ charsLe bs as = true := by
  intro as
  induction as with
  | nil => intro bs; left; rfl
  | cons a as ih =>
    intro bs
    cases bs with
    | nil => right; rfl
    | cons b bs =>
      by_cases hab : a = b
      · subst hab
        rcases ih bs with h | h
        · left; simpa [charsLe] using h
        · right; simpa [charsLe] using h
      · have hne : a.toNat ≠ b.toNat := fun hn => hab (char_toNat_inj hn)
        rcases Nat.lt_or_ge a.toNat b.toNat with hlt | hge
        · left; simp [charsLe, hab, hlt]
        · right
          have hba : ¬ b = a := fun h => hab h.symm
          have : b.toNat < a.toNat := lt_of_le_of_ne hge (Ne.symm hne)
          simp [charsLe, hba, this]

theorem charsLe_trans : ∀ as bs cs, charsLe as bs = true → charsLe bs cs = true →
    charsLe as cs = true := by
  intro as
  induction as with
  | nil => intro bs cs _ _; rfl
  | cons a as ih =>
    intro bs cs h1 h2
    cases bs with
    | nil => simp [charsLe] at h1
    | cons b bs =>
      cases cs with
      | nil => simp [charsLe] at h2
      | cons c cs =>
        by_cases hab : a = b
        · subst hab
          by_cases hbc : a = c
          · subst hbc
            simp only [charsLe, if_pos rfl] at h1 h2 ⊢
            exact ih bs cs h1 h2
          · simp only [charsLe, if_pos rfl] at h1
            simp only [charsLe, hbc, if_false, if_neg hbc] at h2 ⊢
            exact h2
        · by_cases hbc : b = c
          · subst hbc
            simp only [charsLe, if_neg hab] at h1 ⊢
            exact h1
          · simp only [charsLe, if_neg hab, decide_eq_true_eq] at h1
            simp only [charsLe, if_neg hbc, decide_eq_true_eq] at h2
            have hac : ¬ a = c := by
              intro h
              subst h
              exact absurd (Nat.lt_trans h1 h2) (lt_irrefl _)
            simp only [charsLe, if_neg hac, decide_eq_true_eq]
            exact Nat.lt_trans h1 h2

theorem charsLe_antisymm : ∀ as bs, charsLe as bs = true → charsLe bs as = true →
    as = bs := by
  intro as
  induction as with
  | nil =>
    intro bs h1 h2
    cases bs with
    | nil => rfl
    | cons b bs => simp [charsLe] at h2
  | cons a as ih =>
    intro bs h1 h2
    cases bs with
    | nil => simp [charsLe] at h1
    | cons b bs =>
      by_cases hab : a = b
      · subst hab
        simp only [charsLe, if_pos rfl] at h1 h2
        rw [ih bs h1 h2]
      · have hba : ¬ b = a := fun h => hab h.symm
        simp only [charsLe, if_neg hab, decide_eq_true_eq] at h1
        simp only [charsLe, if_neg hba, decide_eq_true_eq] at h2
        exact absurd (Nat.lt_trans h1 h2) (lt_irrefl _)

theorem strLe_total (a b : String) : strLe a b = true ∨ strLe b a = true :=
  charsLe_total a.data b.data

theorem strLe_trans {a b c : String} (h1 : strLe a b = true) (h2 : strLe b c = true) :
    strLe a c = true :=
  charsLe_trans a.data b.data c.data h1 h2

theorem strLe_antisymm {a b : String} (h1 : strLe a b = true) (h2 : strLe b a = true) :
    a = b :=
  String.ext (charsLe_antisymm a.data b.data h1 h2)

instance strLeIsAntisymm : IsAntisymm String (fun a b => strLe a b = true) :=
  ⟨fun _ _ h1 h2 => strLe_antisymm h1 h2⟩

/-- One insertion step of the (stable, ascending) sort modelling Python
`sorted`. -/
def insertSorted (s : String) : List String → List String
  | [] => [s]
  | t :: rest => if strLe s t then s :: t :: rest else t :: insertSorted s rest

/-- `sorted(param_strings)`: ascending sort of a list of strings. -/
def sortStrings (l : List String) : List String := l.foldr insertSorted []

theorem insertSorted_perm (s : String) : ∀ l : List String,
    (insertSorted s l).Perm (s :: l) := by
  intro l
  induction l with
  | nil => exact List.Perm.refl _
  | cons t rest ih =>
    by_cases h : strLe s t
    · simp [insertSorted, h]
    · simp only [insertSorted, h, if_false, Bool.false_eq_true]
      exact ((ih.cons t).trans (List.Perm.swap s t rest))

theorem sortStrings_perm (l : List String) : (sortStrings l).Perm l := by
  induction l with
  | nil => exact List.Perm.refl _
  | cons s rest ih =>
    exact (insertSorted_perm s (sortStrings rest)).trans (ih.cons s)

theorem mem_insertSorted {x s : String} {l : List String} :
    x ∈ insertSorted s l ↔ x = s ∨ x ∈ l :=
  ⟨fun h => by simpa using (insertSorted_perm s l).mem_iff.mp h,
   fun h => (insertSorted_perm s l).mem_iff.mpr (by simpa using h)⟩

theorem insertSorted_sorted (s : String) {l : List String}
    (hl : List.Sorted (fun a b => strLe a b = true) l) :
    List.Sorted (fun a b => strLe a b = true) (insertSorted s l) := by
  induction l with
  | nil => simp [insertSorted]
  | cons t rest ih =>
    by_cases h : strLe s t
    · simp only [insertSorted, h, if_true]
      refine List.Pairwise.cons ?_ hl
      intro y hy
      rcases List.mem_cons.mp hy with rfl | hy2
      · exact h
      · exact strLe_trans h (List.rel_of_sorted_cons hl y hy2)
    · have hts : strLe t s = true := by
        rcases strLe_total s t with h' | h'
        · exact absurd h' h
        · exact h'
      simp only [insertSorted, h, if_false, Bool.false_eq_true]
      refine List.Pairwise.cons ?_ (ih (List.Sorted.of_cons hl))
      intro y hy
      rcases mem_insertSorted.mp hy with rfl | hy2
      · exact hts
      · exact List.rel_of_sorted_cons hl y hy2

theorem sortStrings_sorted (l : List String) :
    List.Sorted (fun a b => strLe a b = true) (sortStrings l) := by
  induction l with
  | nil => simp [sortStrings]
  | cons s rest ih => exact insertSorted_sorted s ih

/-- Sorting is canonical on permuted inputs. -/
theorem sortStrings_eq_of_perm {l1 l2 : List String} (h : l1.Perm l2) :
    sortStrings l1 = sortStrings l2 :=
  List.eq_of_perm_of_sorted
    ((sortStrings_perm l1).trans (h.trans (sortStrings_perm l2).symm))
    (sortStrings_sorted l1) (sortStrings_sorted l2)

/-- The rendered parameter strings `p.name + val_str(p.attr)` of
`_create_module_name` (value rendering by `val_str` is external; parameters
arrive here as (name, rendered value string) pairs). -/
def paramStrings (params : List (String × String)) : List String :=
  params.map (fun p => p.1 ++ p.2)

/-- The `for ps in sorted(param_strings): name += "_" + ps` loop. -/
def joinedName (name : String) (params : List (String × String)) : String :=
  (sortStrings (paramStrings params)).foldl (fun acc ps => acc ++ "_" ++ ps) name

/-- `name.replace("!hw.", "")`: left-to-right, non-overlapping removal of the
substring `!hw.`. -/
def removeHw : List Char → List Char
  | [] => []
  | '!' :: 'h' :: 'w' :: '.' :: rest => removeHw rest
  | c :: rest => c :: removeHw rest

/-- The characters of the literal `"!>[],\""` which the loop drops outright
(they neither survive nor produce an underscore). -/
def droppedChars : List Char := ['!', '>', '[', ']', ',', '\"']

/-- The character loop of `_create_module_name`: an alphanumeric character is
kept; any other character not in `droppedChars` contributes one underscore
provided `ret` is nonempty (`len(ret) > 0`) and does not already end in one
(`ret[-1] != "_"`); `last` is the last character of `ret` (`none` if empty). -/
def sanitizeLoop : List Char → Option Char → List Char
  | [], _ => []
  | c :: rest, last =>
    if c.isAlphanum then c :: sanitizeLoop rest (some c)
    else if droppedChars.contains c then sanitizeLoop rest last
    else match last with
      | none => sanitizeLoop rest none
      | some l =>
        if l = '_' then sanitizeLoop rest (some l)
        else '_' :: sanitizeLoop rest (some '_')

/-- `ret.strip("_")`. -/
def stripUnderscores (cs : List Char) : List Char :=
  ((cs.dropWhile (fun c => c == '_')).reverse.dropWhile (fun c => c == '_')).reverse

/-- `_create_module_name`: join the base name with the sorted rendered
parameters, remove `!hw.`, run the character loop, and strip underscores. -/
def create_module_name (name : String) (params : List (String × String)) : String :=
  String.mk (stripUnderscores (sanitizeLoop (removeHw (joinedName name params).data) none))

/-- The claim's sanitation rule, modelled from the spec's words: every
maximal run of non-alphanumeric characters collapses to a single underscore
(`prev` records whether the previous character was part of such a run),
then leading/trailing underscores are trimmed. -/
def collapseLoop : List Char → Bool → List Char
  | [], _ => []
  | c :: rest, prev =>
    if c.isAlphanum then c :: collapseLoop rest false
    else if prev then collapseLoop rest true
    else '_' :: collapseLoop rest true

/-- The derived display name exactly as the claim words it (all
non-alphanumeric characters collapsed to single underscores, underscores
trimmed). -/
def spec_module_name (name : String) (params : List (String × String)) : String :=
  String.mk (stripUnderscores (collapseLoop (joinedName name params).data false))

/-- The derived display name as amended: additionally, `!hw.` substrings and
the characters of `"!>[],\""` are deleted outright before runs collapse. -/
def amended_module_name (name : String) (params : List (String × String)) : String :=
  String.mk (stripUnderscores (collapseLoop
    ((removeHw (joinedName name params).data).filter
      (fun c => !droppedChars.contains c)) false))

example : create_module_name "M" [("a", "b,c")] = "M_abc" := by decide
example : spec_module_name "M" [("a", "b,c")] = "M_ab_c" := by decide
example : create_module_name "PolyComputeForCoeff" [("c2", "6"), ("c0", "62"), ("c1", "42")] =
    "PolyComputeForCoeff_c062_c142_c26" := by decide
example : create_module_name "M" [("t", "!hw.array<4xi8>")] = "M_tarray_4xi8" := by decide

/-- An alphanumeric character is not one of the dropped characters. -/
theorem alnum_not_dropped {c : Char} (h : c.isAlphanum = true) :
    droppedChars.contains c = false := by
  cases hc : droppedChars.contains c
  · rfl
  · have hm : c ∈ droppedChars := List.elem_iff.mp hc
    simp only [droppedChars, List.mem_cons, List.not_mem_nil, or_false] at hm
    rcases hm with rfl | rfl | rfl | rfl | rfl | rfl <;> simp at h

/-- Encoding of the sanitation loop's `ret` state for comparison with the
run-collapsing loop: `true` when `ret` is empty or already ends in an
underscore. -/
def lastFlag : Option Char → Bool
  | none => true
  | some l => l == '_'

/-- The character loop of the source equals the run-collapsing loop of the
amended claim, run on the input with the dropped characters filtered out. -/
theorem sanitizeLoop_eq_collapseLoop : ∀ (cs : List Char) (last : Option Char),
    sanitizeLoop cs last =
      collapseLoop (cs.filter (fun c => !droppedChars.contains c)) (lastFlag last) := by
  intro cs
  induction cs with
  | nil => intro last; simp [sanitizeLoop, collapseLoop]
  | cons c rest ih =>
    intro last
    by_cases ha : c.isAlphanum = true
    · have hd := alnum_not_dropped ha
      have hu : (c == '_') = false := by
        cases he : c == '_'
        · rfl
        · have : c = '_' := by simpa using he
          subst this
          simp at ha
      simp only [sanitizeLoop, ha, if_true, List.filter_cons, hd, Bool.not_false,
        if_true, collapseLoop, ih (some c), lastFlag, hu]
    · have ha' : c.isAlphanum = false := by
        cases h : c.isAlphanum
        · rfl
        · exact absurd h ha
      cases hd : droppedChars.contains c with
      | true =>
        simp only [sanitizeLoop, ha', Bool.false_eq_true, if_false, hd, if_true,
          List.filter_cons, Bool.not_true]
        exact ih last
      | false =>
        cases last with
        | none =>
          simp only [sanitizeLoop, ha', Bool.false_eq_true, if_false, hd,
            List.filter_cons, Bool.not_false, if_true, collapseLoop, lastFlag]
          exact ih none
        | some l =>
          by_cases hl : l = '_'
          · subst hl
            simp only [sanitizeLoop, ha', Bool.false_eq_true, if_false, hd,
              List.filter_cons, Bool.not_false, if_true, collapseLoop, lastFlag,
              if_pos rfl]
            simpa [lastFlag] using ih (some '_')
          · simp only [sanitizeLoop, ha', Bool.false_eq_true, if_false, hd,
              List.filter_cons, Bool.not_false, if_true, collapseLoop, lastFlag,
              if_neg hl]
            have hlf : (l == '_') = false := by
              cases he : l == '_'
              · rfl
              · exact absurd (by simpa using he) hl
            simp only [hlf, Bool.false_eq_true, if_false]
            simpa [lastFlag] using ih (some '_')

/-- Starting the run-collapsing loop outside a run differs from starting it
inside one at most by one leading underscore. -/
theorem collapseLoop_false_cases (cs : List Char) :
    collapseLoop cs false = collapseLoop cs true ∨
    collapseLoop cs false = '_' :: collapseLoop cs true := by
  cases cs with
  | nil => left; rfl
  | cons c rest =>
    by_cases ha : c.isAlphanum = true
    · left; simp [collapseLoop, ha]
    · have ha' : c.isAlphanum = false := by
        cases h : c.isAlphanum
        · rfl
        · exact absurd h ha
      right; simp [collapseLoop, ha']

/-- Stripping underscores ignores one leading underscore. -/
theorem stripUnderscores_underscore_cons (cs : List Char) :
    stripUnderscores ('_' :: cs) = stripUnderscores cs := by
  simp [stripUnderscores, List.dropWhile]

/-- C8 (amended): the derived display name is deterministic in the supplied
parameter order, and equals the base name joined with the sorted
`_name+valuestring` renderings, with `!hw.` substrings and the characters
`!>[],"` deleted outright, every remaining maximal run of non-alphanumeric
characters collapsed to a single underscore, and leading/trailing
underscores trimmed. -/
theorem claim_C8_derived_name (name : String) (params : List (String × String)) :
    (∀ params2 : List (String × String), params.Perm params2 →
      create_module_name name params = create_module_name name params2) ∧
    create_module_name name params = amended_module_name name params := by
  constructor
  · intro params2 hperm
    have hp : (paramStrings params).Perm (paramStrings params2) :=
      hperm.map (fun p : String × String => p.1 ++ p.2)
    have h : joinedName name params = joinedName name params2 := by
      unfold joinedName
      rw [sortStrings_eq_of_perm hp]
    unfold create_module_name
    rw [h]
  · unfold create_module_name amended_module_name
    rw [sanitizeLoop_eq_collapseLoop]
    rcases collapseLoop_false_cases
        ((removeHw (joinedName name params).data).filter
          (fun c => !droppedChars.contains c)) with h | h
    · rw [show lastFlag none = true from rfl, h]
    · rw [show lastFlag none = true from rfl, h, stripUnderscores_underscore_cons]

/-- Counterexample to C8 as stated: with parameter value string `b,c`, the
source deletes the comma outright, whereas the claim's rule (all
non-alphanumeric characters collapsed to single underscores) would keep an
underscore for it; the two derived names differ. -/
theorem claim_C8_counterexample :
    create_module_name "M" [("a", "b,c")] = "M_abc" ∧
    spec_module_name "M" [("a", "b,c")] = "M_ab_c" ∧
    ("M_abc" : String) ≠ "M_ab_c" :=
  ⟨by decide, by decide, by decide⟩

/-- Witness for C8 (amended): same parameters supplied in different orders
derive identical names. -/
theorem claim_C8_derived_name_witness :
    create_module_name "Adder" [("width", "8"), ("depth", "2")] =
      create_module_name "Adder" [("depth", "2"), ("width", "8")] ∧
    create_module_name "Adder" [("width", "8"), ("depth", "2")] =
      "Adder_depth2_width8" :=
  ⟨(claim_C8_derived_name "Adder" [("width", "8"), ("depth", "2")]).1
      [("depth", "2"), ("width", "8")] (List.Perm.swap _ _ _),
    by decide⟩

/-- Identity of a parameterization factory function (`self.func` in
`modparams`); the cache key's first component. -/
abbrev FuncId := Nat

/-- Parameter values, opaque constants convertible to attributes. -/
abbrev PValue := Nat

/-- A factory signature: declared parameter names with optional defaults, in
declaration order.  `modparams.__init__` rejects `*args`/`**kwargs`, so a
signature is a plain list of named parameters. -/
abbrev ParamSig := List (String × Option PValue)

/-- `self.sig.bind(*args, **kwargs)` followed by `apply_defaults()`:
positional arguments fill the leading parameters; a keyword argument fills
its parameter by name (a parameter already filled positionally must not also
be supplied by keyword); remaining parameters take their default or binding
fails; excess positional and unexpected keyword arguments fail.  The result
lists every parameter with its value in declaration order, as in
`BoundArguments.arguments`. -/
def bindArgs : ParamSig → List PValue → List (String × PValue) →
    Option (List (String × PValue))
  | [], [], [] => some []
  | [], _ :: _, _ => none
  | [], [], _ :: _ => none
  | (nm, _) :: sigRest, a :: argsRest, kwargs =>
    if (kwargs.map Prod.fst).contains nm then none
    else (bindArgs sigRest argsRest kwargs).map (fun r => (nm, a) :: r)
  | (nm, dflt) :: sigRest, [], kwargs =>
    match kwargs.find? (fun kv => kv.1 == nm) with
    | some kv =>
      (bindArgs sigRest [] (kwargs.filter (fun kv2 => kv2.1 != nm))).map
        (fun r => (nm, kv.2) :: r)
    | none =>
      match dflt with
      | some d => (bindArgs sigRest [] kwargs).map (fun r => (nm, d) :: r)
      | none => none

/-- `params = {n: v for n, v in param_values.arguments.items() if not
n.startswith("_")}`: function arguments with a `_` prefix do not become
parameters. -/
def dropPrivateParams (bound : List (String × PValue)) : List (String × PValue) :=
  bound.filter (fun p => !startsWithUnderscore p.1)

/-- One insertion step for sorting parameters by name. -/
def insertParam (kv : String × PValue) : List (String × PValue) → List (String × PValue)
  | [] => [kv]
  | kv2 :: rest =>
    if strLe kv.1 kv2.1 then kv :: kv2 :: rest else kv2 :: insertParam kv rest

/-- Modelled from the spec: `_obj_to_attribute` (external, `support.py`)
normalizes the parameter dictionary into an `ir.DictAttr`, an
order-independent representation; the `ParameterKey` is modelled as the
name-sorted association list. -/
def sortParams (l : List (String × PValue)) : List (String × PValue) :=
  l.foldr insertParam []

/-- `_get_module_cache_key`: the pair of the factory and the normalized
parameter attribute. -/
def get_module_cache_key (f : FuncId) (params : List (String × PValue)) :
    FuncId × List (String × PValue) :=
  (f, sortParams params)

/-- Association-list lookup (Python dict access on `_MODULE_CACHE`). -/
def alookup {K V : Type} [DecidableEq K] (k : K) : List (K × V) → Option V
  | [] => none
  | (k2, v) :: rest => if k2 = k then some v else alookup k rest

/-- Process-wide state of the parameterization cache: `_MODULE_CACHE`, a
fresh-id counter standing for allocation of new definition objects by factory
bodies, and the log of factory-body executions (each entry records the cache
key the execution was stored under). -/
structure CacheState where
  cache : List ((FuncId × List (String × PValue)) × Nat) := []
  nextDef : Nat := 0
  execs : List (FuncId × List (String × PValue)) := []
deriving DecidableEq, Repr

/-- Binding errors from `modparams.__call__` (a `TypeError` from
`Signature.bind`). -/
inductive CallErr
  | bindFailure
deriving DecidableEq, Repr

/-- `modparams.__call__`: bind and default-fill the arguments, drop private
(`_`-prefixed) names, form the cache key, and return the cached definition on
a hit; on a miss run the factory (modelled as allocating the next fresh
definition id, always a `Module` subclass), store the result under the key,
and return it. -/
def modparamsCall (f : FuncId) (sig : ParamSig) (args : List PValue)
    (kwargs : List (String × PValue)) (st : CacheState) :
    Except CallErr Nat × CacheState :=
  match bindArgs sig args kwargs with
  | none => (Except.error CallErr.bindFailure, st)
  | some bound =>
    let key := get_module_cache_key f (dropPrivateParams bound)
    match alookup key st.cache with
    | some d => (Except.ok d, st)
    | none =>
      (Except.ok st.nextDef,
        { cache := (key, st.nextDef) :: st.cache
          nextDef := st.nextDef + 1
          execs := key :: st.execs })

/-- One recorded factory call: function, signature, and arguments. -/
structure CallReq where
  func : FuncId
  sig : ParamSig
  args : List PValue
  kwargs : List (String × PValue)
deriving DecidableEq, Repr

/-- A sequence of `modparams.__call__` invocations against the process-wide
cache. -/
def runCalls (reqs : List CallReq) (st : CacheState) : CacheState :=
  reqs.foldl (fun s r => (modparamsCall r.func r.sig r.args r.kwargs s).2) st

example :
    (modparamsCall 0 [("width", none), ("_ignored", some 0)] [5] [] {}).1 =
      Except.ok 0 := rfl

example :
    (modparamsCall 0 [("width", none), ("_ignored", some 0)] [] [("width", 5)]
      (modparamsCall 0 [("width", none), ("_ignored", some 0)] [5] [] {}).2).1 =
      Except.ok 0 := rfl

example :
    (modparamsCall 0 [("width", none)] [] [("width", 9)]
      (modparamsCall 0 [("width", none)] [5] [] {}).2).1 =
      Except.ok 1 := rfl

/-- A successful call leaves its key cached, bound to the returned
definition. -/
theorem modparamsCall_ok_cached (f : FuncId) (sig : ParamSig) (args : List PValue)
    (kwargs : List (String × PValue)) (st : CacheState) (bound : List (String × PValue))
    (d : Nat) (st1 : CacheState)
    (hb : bindArgs sig args kwargs = some bound)
    (hc : modparamsCall f sig args kwargs st = (Except.ok d, st1)) :
    alookup (get_module_cache_key f (dropPrivateParams bound)) st1.cache = some d := by
  cases hl : alookup (get_module_cache_key f (dropPrivateParams bound)) st.cache with
  | some d0 =>
    rw [modparamsCall, hb] at hc
    simp only [hl] at hc
    injection hc with h1 h2
    injection h1 with h1
    subst h1 h2
    exact hl
  | none =>
    rw [modparamsCall, hb] at hc
    simp only [hl] at hc
    injection hc with h1 h2
    injection h1 with h1
    subst h1
    rw [← h2]
    simp [alookup]

/-- A call never removes or rebinds an existing cache entry. -/
theorem modparamsCall_preserves_cache (f : FuncId) (sig : ParamSig)
    (args : List PValue) (kwargs : List (String × PValue)) (st : CacheState)
    (k : FuncId × List (String × PValue)) (d : Nat)
    (h : alookup k st.cache = some d) :
    alookup k (modparamsCall f sig args kwargs st).2.cache = some d := by
  cases hb : bindArgs sig args kwargs with
  | none => simpa [modparamsCall, hb] using h
  | some bound =>
    cases hl : alookup (get_module_cache_key f (dropPrivateParams bound)) st.cache with
    | some d0 => simpa [modparamsCall, hb, hl] using h
    | none =>
      have hne : get_module_cache_key f (dropPrivateParams bound) ≠ k := by
        intro he
        rw [he, h] at hl
        exact Option.noConfusion hl
      simp only [modparamsCall, hb, hl]
      simpa [alookup, hne] using h

/-- Cached entries survive any sequence of further calls. -/
theorem runCalls_preserves_cache (reqs : List CallReq) :
    ∀ (st : CacheState) (k : FuncId × List (String × PValue)) (d : Nat),
      alookup k st.cache = some d →
      alookup k (runCalls reqs st).cache = some d := by
  induction reqs with
  | nil => intro st k d h; exact h
  | cons r rest ih =>
    intro st k d h
    exact ih _ k d (modparamsCall_preserves_cache r.func r.sig r.args r.kwargs st k d h)

/-- A call whose key is already cached returns the cached definition and does
not run the factory (the state is unchanged). -/
theorem modparamsCall_hit (f : FuncId) (sig : ParamSig) (args : List PValue)
    (kwargs : List (String × PValue)) (st : CacheState)
    (bound : List (String × PValue)) (d : Nat)
    (hb : bindArgs sig args kwargs = some bound)
    (hl : alookup (get_module_cache_key f (dropPrivateParams bound)) st.cache = some d) :
    modparamsCall f sig args kwargs st = (Except.ok d, st) := by
  simp [modparamsCall, hb, hl]

/-- Invariant: the factory ran at most once for key `k`, and if it ran, `k`
is cached. -/
def execOnceInv (k : FuncId × List (String × PValue)) (st : CacheState) : Prop :=
  st.execs.count k ≤ 1 ∧ (k ∈ st.execs → (alookup k st.cache).isSome)

theorem modparamsCall_execOnceInv (f : FuncId) (sig : ParamSig)
    (args : List PValue) (kwargs : List (String × PValue)) (st : CacheState)
    (k : FuncId × List (String × PValue)) (hinv : execOnceInv k st) :
    execOnceInv k (modparamsCall f sig args kwargs st).2 := by
  obtain ⟨hcount, hmem⟩ := hinv
  cases hb : bindArgs sig args kwargs with
  | none => exact ⟨by simpa [modparamsCall, hb] using hcount,
      by simpa [modparamsCall, hb] using hmem⟩
  | some bound =>
    cases hl : alookup (get_module_cache_key f (dropPrivateParams bound)) st.cache with
    | some d0 => exact ⟨by simpa [modparamsCall, hb, hl] using hcount,
        by simpa [modparamsCall, hb, hl] using hmem⟩
    | none =>
      by_cases hk : get_module_cache_key f (dropPrivateParams bound) = k
      · have hnotmem : k ∉ st.execs := by
          intro hm
          have h2 := hmem hm
          rw [← hk, hl] at h2
          exact absurd h2 (by simp)
        have hzero : st.execs.count k = 0 := List.count_eq_zero.mpr hnotmem
        constructor
        · simp only [modparamsCall, hb, hl, List.count_cons]
          simp [hk, hzero]
        · intro _
          rw [hk] at hl
          simp [modparamsCall, hb, hl, alookup, hk]
      · constructor
        · simp only [modparamsCall, hb, hl, List.count_cons]
          have hbeq : (get_module_cache_key f (dropPrivateParams bound) == k) = false := by
            simp [hk]
          simp [hbeq, hcount]
        · intro hm
          simp only [modparamsCall, hb, hl, List.mem_cons] at hm
          rcases hm with he | hm2
          · exact absurd he.symm hk
          · have h2 := hmem hm2
            simp only [modparamsCall, hb, hl]
            simpa [alookup, hk] using h2

/-- The at-most-once invariant is preserved by any sequence of calls. -/
theorem runCalls_execOnceInv (reqs : List CallReq) :
    ∀ (st : CacheState) (k : FuncId × List (String × PValue)),
      execOnceInv k st → execOnceInv k (runCalls reqs st) := by
  induction reqs with
  | nil => intro st k h; exact h
  | cons r rest ih =>
    intro st k h
    exact ih _ k (modparamsCall_execOnceInv r.func r.sig r.args r.kwargs st k h)

/-- C1: calls to a parameterization factory whose arguments (after binding,
default-filling, and dropping `_`-prefixed names) normalize to the same
`ParameterKey` return the identical cached definition — a later call with
the same key (even after arbitrary intervening calls) returns the same
definition id with the cache state untouched — and the factory body executes
at most once per distinct `(factory, key)` pair over any call sequence. -/
theorem claim_C1_parameterization_cache :
    (∀ (st : CacheState) (f : FuncId) (sig : ParamSig)
       (args1 : List PValue) (kwargs1 : List (String × PValue))
       (args2 : List PValue) (kwargs2 : List (String × PValue))
       (bound1 bound2 : List (String × PValue)) (mid : List CallReq)
       (d : Nat) (st1 : CacheState),
      bindArgs sig args1 kwargs1 = some bound1 →
      bindArgs sig args2 kwargs2 = some bound2 →
      sortParams (dropPrivateParams bound1) = sortParams (dropPrivateParams bound2) →
      modparamsCall f sig args1 kwargs1 st = (Except.ok d, st1) →
      modparamsCall f sig args2 kwargs2 (runCalls mid st1) =
        (Except.ok d, runCalls mid st1)) ∧
    (∀ (reqs : List CallReq) (k : FuncId × List (String × PValue)),
      (runCalls reqs {}).execs.count k ≤ 1) := by
  constructor
  · intro st f sig args1 kwargs1 args2 kwargs2 bound1 bound2 mid d st1 hb1 hb2 hkey hc1
    have hcached : alookup (get_module_cache_key f (dropPrivateParams bound1))
        st1.cache = some d :=
      modparamsCall_ok_cached f sig args1 kwargs1 st bound1 d st1 hb1 hc1
    have hmid := runCalls_preserves_cache mid st1 _ d hcached
    have hl2 : alookup (get_module_cache_key f (dropPrivateParams bound2))
        (runCalls mid st1).cache = some d := by
      unfold get_module_cache_key
      rw [← hkey]
      exact hmid
    exact modparamsCall_hit f sig args2 kwargs2 (runCalls mid st1) bound2 d hb2 hl2
  · intro reqs k
    exact (runCalls_execOnceInv reqs {} k ⟨by simp, by simp⟩).1

/-- Witness for C1: the same parameters supplied positionally and by keyword
(with a private `_ignored` argument defaulted) hit the same cache entry, and
the factory ran once. -/
theorem claim_C1_parameterization_cache_witness :
    modparamsCall 0 [("width", none), ("_ignored", some 0)] [] [("width", 5)]
        (modparamsCall 0 [("width", none), ("_ignored", some 0)] [5] [] {}).2 =
      (Except.ok 0, (modparamsCall 0 [("width", none), ("_ignored", some 0)] [5] [] {}).2) ∧
    (runCalls
        [CallReq.mk 0 [("width", none), ("_ignored", some 0)] [5] [],
         CallReq.mk 0 [("width", none), ("_ignored", some 0)] [] [("width", 5)]]
        {}).execs.count (0, [("width", 5)]) ≤ 1 := by
  constructor
  · exact (claim_C1_parameterization_cache).1 {} 0
      [("width", none), ("_ignored", some 0)] [5] [] [] [("width", 5)]
      [("width", 5), ("_ignored", 0)] [("width", 5), ("_ignored", 0)] [] 0
      (modparamsCall 0 [("width", none), ("_ignored", some 0)] [5] [] {}).2
      rfl rfl rfl rfl
  · exact (claim_C1_parameterization_cache).2
      [CallReq.mk 0 [("width", none), ("_ignored", some 0)] [5] [],
       CallReq.mk 0 [("width", none), ("_ignored", some 0)] [] [("width", 5)]]
      (0, [("width", 5)])

/-- Little-endian decimal digits of `n` (fuel-bounded; any fuel at least `n`
is exact). -/
def toDigitsRev : Nat → Nat → List Nat
  | 0, _ => []
  | fuel + 1, n => if n = 0 then [] else n % 10 :: toDigitsRev fuel (n / 10)

/-- Value of a little-endian digit list. -/
def fromDigitsRev : List Nat → Nat
  | [] => 0
  | d :: rest => d + 10 * fromDigitsRev rest

/-- Decimal rendering of a counter, as Python f-string formatting renders an
`int`. -/
def natRepr (n : Nat) : String :=
  if n = 0 then "0"
  else String.mk ((toDigitsRev (n + 1) n).reverse.map Nat.digitChar)

/-- The candidate tried at loop counter `ctr` in `uniquify_symbol`: `sym`
itself first, then `f"{sym}_{ctr}"`. -/
def candidate (sym : String) : Nat → String
  | 0 => sym
  | n + 1 => sym ++ "_" ++ natRepr (n + 1)

/-- `_BlockContext`: bookkeeping for a generator scope, carrying the set of
symbols already used. -/
structure BlockContext where
  symbols : List String
deriving DecidableEq, Repr

/-- The `while ret in self.symbols` loop of `uniquify_symbol` (fuel-bounded;
`symbols.length + 1` fuel suffices, see `uniquifyLoop_spec`). -/
def uniquifyLoop (sym : String) (symbols : List String) : Nat → Nat → String
  | ctr, 0 => candidate sym ctr
  | ctr, fuel + 1 =>
    if candidate sym ctr ∈ symbols then uniquifyLoop sym symbols (ctr + 1) fuel
    else candidate sym ctr

/-- `_BlockContext.uniquify_symbol`: find the first free candidate and add it
to the symbol set. -/
def uniquify_symbol (bc : BlockContext) (sym : String) : String × BlockContext :=
  let ret := uniquifyLoop sym bc.symbols 0 (bc.symbols.length + 1)
  (ret, BlockContext.mk (ret :: bc.symbols))

example : (uniquify_symbol (BlockContext.mk ["a", "a_1"]) "a").1 = "a_2" := by decide
example : (uniquify_symbol (BlockContext.mk ["b"]) "a").1 = "a" := by decide
example : natRepr 142 = "142" := by decide

theorem fromDigitsRev_toDigitsRev : ∀ (fuel n : Nat), n ≤ fuel →
    fromDigitsRev (toDigitsRev fuel n) = n := by
  intro fuel
  induction fuel with
  | zero =>
    intro n hn
    have : n = 0 := Nat.le_zero.mp hn
    subst this
    rfl
  | succ fuel ih =>
    intro n hn
    by_cases h0 : n = 0
    · subst h0; simp [toDigitsRev, fromDigitsRev]
    · have hdiv : n / 10 ≤ fuel := by
        have h1 : n / 10 < n := Nat.div_lt_self (Nat.pos_of_ne_zero h0) (by omega)
        omega
      simp only [toDigitsRev, h0, if_false, fromDigitsRev]
      rw [ih (n / 10) hdiv]
      omega

theorem toDigitsRev_lt : ∀ (fuel n d : Nat), d ∈ toDigitsRev fuel n → d < 10 := by
  intro fuel
  induction fuel with
  | zero => intro n d hd; simp [toDigitsRev] at hd
  | succ fuel ih =>
    intro n d hd
    by_cases h0 : n = 0
    · subst h0; simp [toDigitsRev] at hd
    · simp only [toDigitsRev, h0, if_false, List.mem_cons] at hd
      rcases hd with rfl | hd
      · exact Nat.mod_lt n (by omega)
      · exact ih (n / 10) d hd

theorem digitChar_inj_lt : ∀ d1, d1 < 10 → ∀ d2, d2 < 10 →
    Nat.digitChar d1 = Nat.digitChar d2 → d1 = d2 := by decide

theorem map_digitChar_inj : ∀ (ds1 ds2 : List Nat),
    (∀ d ∈ ds1, d < 10) → (∀ d ∈ ds2, d < 10) →
    ds1.map Nat.digitChar = ds2.map Nat.digitChar → ds1 = ds2 := by
  intro ds1
  induction ds1 with
  | nil =>
    intro ds2 _ _ h
    cases ds2 with
    | nil => rfl
    | cons d2 rest2 => simp at h
  | cons d1 rest1 ih =>
    intro ds2 h1 h2 h
    cases ds2 with
    | nil => simp at h
    | cons d2 rest2 =>
      simp only [List.map_cons, List.cons.injEq] at h
      obtain ⟨hh, ht⟩ := h
      have hd : d1 = d2 :=
        digitChar_inj_lt d1 (h1 d1 (by simp)) d2 (h2 d2 (by simp)) hh
      have hr : rest1 = rest2 :=
        ih rest2 (fun d hd2 => h1 d (by simp [hd2])) (fun d hd2 => h2 d (by simp [hd2])) ht
      rw [hd, hr]

theorem natRepr_pos_inj {m n : Nat} (hm : 0 < m) (hn : 0 < n)
    (h : natRepr m = natRepr n) : m = n := by
  unfold natRepr at h
  rw [if_neg (by omega), if_neg (by omega)] at h
  injection h with hdata
  have hrev : (toDigitsRev (m + 1) m).reverse = (toDigitsRev (n + 1) n).reverse :=
    map_digitChar_inj _ _
      (fun d hd => toDigitsRev_lt (m + 1) m d (List.mem_reverse.mp hd))
      (fun d hd => toDigitsRev_lt (n + 1) n d (List.mem_reverse.mp hd)) hdata
  have hds : toDigitsRev (m + 1) m = toDigitsRev (n + 1) n :=
    List.reverse_injective hrev
  have h1 := fromDigitsRev_toDigitsRev (m + 1) m (by omega)
  have h2 := fromDigitsRev_toDigitsRev (n + 1) n (by omega)
  rw [← h1, ← h2, hds]

theorem candidate_inj {sym : String} : ∀ {m n : Nat},
    candidate sym m = candidate sym n → m = n := by
  have hlen : ∀ k, (candidate sym (k + 1)).length =
      sym.length + 1 + (natRepr (k + 1)).length := by
    intro k
    simp [candidate, String.length_append, show ("_" : String).length = 1 from rfl]
  intro m n h
  match m, n with
  | 0, 0 => rfl
  | 0, n + 1 =>
    have := congrArg String.length h
    rw [hlen n, show candidate sym 0 = sym from rfl] at this
    omega
  | m + 1, 0 =>
    have := congrArg String.length h
    rw [hlen m, show candidate sym 0 = sym from rfl] at this
    omega
  | m + 1, n + 1 =>
    have hdata := congrArg String.data h
    simp only [candidate, String.data_append] at hdata
    have h2 := List.append_cancel_left hdata
    have h4 : natRepr (m + 1) = natRepr (n + 1) := String.ext h2
    have := natRepr_pos_inj (Nat.succ_pos m) (Nat.succ_pos n) h4
    omega

theorem exists_free_candidate (sym : String) (symbols : List String) :
    ∃ i, i ≤ symbols.length ∧ candidate sym i ∉ symbols := by
  by_contra hall
  push_neg at hall
  have hsub : (Finset.range (symbols.length + 1)).image (candidate sym) ⊆
      symbols.toFinset := by
    intro x hx
    simp only [Finset.mem_image, Finset.mem_range] at hx
    obtain ⟨i, hi, rfl⟩ := hx
    exact List.mem_toFinset.mpr (hall i (by omega))
  have hcard := Finset.card_le_card hsub
  rw [Finset.card_image_of_injOn (fun a _ b _ hab => candidate_inj hab)] at hcard
  have hle := List.toFinset_card_le symbols
  simp only [Finset.card_range] at hcard
  omega

/-- With enough fuel, the `while` loop returns the first free candidate at or
after the starting counter. -/
theorem uniquifyLoop_spec (sym : String) (symbols : List String) :
    ∀ (fuel ctr : Nat), (∃ d, d ≤ fuel ∧ candidate sym (ctr + d) ∉ symbols) →
      ∃ d, d ≤ fuel ∧ uniquifyLoop sym symbols ctr fuel = candidate sym (ctr + d) ∧
        candidate sym (ctr + d) ∉ symbols ∧
        ∀ j, j < d → candidate sym (ctr + j) ∈ symbols := by
  intro fuel
  induction fuel with
  | zero =>
    intro ctr hex
    obtain ⟨d, hd, hfree⟩ := hex
    have hd0 : d = 0 := Nat.le_zero.mp hd
    subst hd0
    exact ⟨0, Nat.le_refl 0, rfl, hfree, fun j hj => absurd hj (Nat.not_lt_zero j)⟩
  | succ fuel ih =>
    intro ctr hex
    obtain ⟨d, hd, hfree⟩ := hex
    by_cases hc : candidate sym ctr ∈ symbols
    · have hd0 : d ≠ 0 := by
        intro h0
        subst h0
        rw [Nat.add_zero] at hfree
        exact hfree hc
      obtain ⟨d2, rfl⟩ := Nat.exists_eq_succ_of_ne_zero hd0
      have hex2 : ∃ d3, d3 ≤ fuel ∧ candidate sym (ctr + 1 + d3) ∉ symbols := by
        refine ⟨d2, by omega, ?_⟩
        have harith : ctr + 1 + d2 = ctr + (d2 + 1) := by omega
        rw [harith]
        exact hfree
      obtain ⟨d0, h1, h2, h3, h4⟩ := ih (ctr + 1) hex2
      refine ⟨d0 + 1, by omega, ?_, ?_, ?_⟩
      · have hloop : uniquifyLoop sym symbols ctr (fuel + 1) =
            uniquifyLoop sym symbols (ctr + 1) fuel := by
          simp [uniquifyLoop, hc]
        rw [hloop, h2]
        have harith : ctr + 1 + d0 = ctr + (d0 + 1) := by omega
        rw [harith]
      · have harith : ctr + (d0 + 1) = ctr + 1 + d0 := by omega
        rw [harith]
        exact h3
      · intro j hj
        cases j with
        | zero =>
          rw [Nat.add_zero]
          exact hc
        | succ j2 =>
          have harith : ctr + (j2 + 1) = ctr + 1 + j2 := by omega
          rw [harith]
          exact h4 j2 (by omega)
    · refine ⟨0, Nat.zero_le _, ?_, ?_, fun j hj => absurd hj (Nat.not_lt_zero j)⟩
      · simp [uniquifyLoop, hc]
      · rw [Nat.add_zero]
        exact hc

/-- `uniquify_symbol` returns the first free candidate. -/
theorem uniquify_symbol_spec (bc : BlockContext) (sym : String) :
    ∃ d, (uniquify_symbol bc sym).1 = candidate sym d ∧
      candidate sym d ∉ bc.symbols ∧
      ∀ j, j < d → candidate sym j ∈ bc.symbols := by
  obtain ⟨i, hi, hfree⟩ := exists_free_candidate sym bc.symbols
  obtain ⟨d, hd, h2, h3, h4⟩ := uniquifyLoop_spec sym bc.symbols (bc.symbols.length + 1) 0
    ⟨i, by omega, by simpa using hfree⟩
  refine ⟨d, by simpa using h2, by simpa using h3, fun j hj => by simpa using h4 j hj⟩

/-- The returned symbol is fresh. -/
theorem uniquify_symbol_not_mem (bc : BlockContext) (sym : String) :
    (uniquify_symbol bc sym).1 ∉ bc.symbols := by
  obtain ⟨d, heq, hfree, _⟩ := uniquify_symbol_spec bc sym
  rw [heq]
  exact hfree

/-- C9: `uniquify_symbol` returns `s` itself when `s` is not yet in the
context's symbol set, and otherwise `s_N` for the smallest positive `N` such
that `s_N` is free; the returned name is fresh, it is added to the set, and
any two calls on the same context return distinct names. -/
theorem claim_C9_uniquify_symbol (bc : BlockContext) (sym : String) :
    ((uniquify_symbol bc sym).1 ∉ bc.symbols) ∧
    ((uniquify_symbol bc sym).2.symbols = (uniquify_symbol bc sym).1 :: bc.symbols) ∧
    (sym ∉ bc.symbols → (uniquify_symbol bc sym).1 = sym) ∧
    (sym ∈ bc.symbols → ∃ N, 0 < N ∧
      (uniquify_symbol bc sym).1 = sym ++ "_" ++ natRepr N ∧
      sym ++ "_" ++ natRepr N ∉ bc.symbols ∧
      ∀ j, 0 < j → j < N → sym ++ "_" ++ natRepr j ∈ bc.symbols) ∧
    (∀ sym2 : String,
      (uniquify_symbol (uniquify_symbol bc sym).2 sym2).1 ≠ (uniquify_symbol bc sym).1) := by
  refine ⟨uniquify_symbol_not_mem bc sym, rfl, ?_, ?_, ?_⟩
  · intro hns
    obtain ⟨d, heq, hfree, hmin⟩ := uniquify_symbol_spec bc sym
    cases d with
    | zero => exact heq
    | succ d2 => exact absurd (hmin 0 (Nat.succ_pos d2)) hns
  · intro hs
    obtain ⟨d, heq, hfree, hmin⟩ := uniquify_symbol_spec bc sym
    cases d with
    | zero => exact absurd hs hfree
    | succ d2 =>
      refine ⟨d2 + 1, Nat.succ_pos d2, heq, hfree, ?_⟩
      intro j hj0 hjN
      cases j with
      | zero => exact absurd hj0 (lt_irrefl 0)
      | succ j2 => exact hmin (j2 + 1) hjN
  · intro sym2 heq2
    have h := uniquify_symbol_not_mem (uniquify_symbol bc sym).2 sym2
    apply h
    rw [heq2]
    exact List.mem_cons_self _ _

/-- Witness for C9 at concrete symbol tables. -/
theorem claim_C9_uniquify_symbol_witness :
    ("a" ∉ (["b"] : List String)) ∧
    (uniquify_symbol (BlockContext.mk ["b"]) "a").1 = "a" ∧
    ("a" ∈ (["a", "a_1"] : List String)) ∧
    (uniquify_symbol (BlockContext.mk ["a", "a_1"]) "a").1 = "a_2" :=
  ⟨by decide,
    (claim_C9_uniquify_symbol (BlockContext.mk ["b"]) "a").2.2.1 (by decide),
    by decide,
    by decide⟩
